import Mathlib

/-!
Verification development for the MintMind out-of-process filesystem agent
(`src/cli`).  Each Rust function relevant to the checked properties is given
a shallow embedding as an executable Lean definition; theorems about those
definitions settle the properties.  Machine integers are modelled as `Nat`
with an explicit `% 2^32` where the Rust `u32` arithmetic can wrap; byte
loops over UTF-8 strings are modelled as loops over `List Char`, which is
faithful because every byte the loops compare against (`/`, `.`) is ASCII
and multi-byte code points can never match it.
-/

namespace MintMind

/-! ## Path normalizer (`src/cli/src/services/paths.rs`)

Embedding of `PathNormalizer::normalize_string` and the POSIX
(`cfg(not(windows))`) branch of `PathNormalizer::normalize`.  The Rust code
walks the byte array with indices `i`, `last_slash`, a dot counter `dots`
and an output buffer `res`; the embedding carries the same state through a
fuel-indexed structural recursion (the loop body runs for
`i = 0 .. path.len()` inclusive, so `path.length + 2` fuel is enough). -/

/-- Model of `PathNormalizer::is_posix_path_separator`. -/
def isPosixPathSeparator (code : Option Char) : Bool :=
  code == some '/'

/-- Byte index of the last occurrence of `c` in `l`; model of Rust
`str::rfind` on the ASCII strings manipulated by `normalize_string`. -/
def rfindChar (l : List Char) (c : Char) : Option Nat :=
  match l.reverse.findIdx? (· == c) with
  | none => none
  | some j => some (l.length - 1 - j)

/-- Loop state of `normalize_string`: the output buffer `res`, the length of
the last emitted segment, the index of the last separator seen (`-1`
initially, as in the source) and the pending-dot counter. -/
structure NormState where
  res : List Char
  lastSegmentLength : Nat
  lastSlash : Int
  dots : Int
deriving Repr, DecidableEq

/-- Slice `path[lo..hi]` (model of the Rust byte-range slice). -/
def sliceChars (path : List Char) (lo hi : Nat) : List Char :=
  (path.drop lo).take (hi - lo)

/-- Loop body of `PathNormalizer::normalize_string`, one constructor of the
Rust `while i <= len` loop per fuel step.  The `i == len` arm mirrors the
source exactly: it tests `is_path_sep(Some(CHAR_FORWARD_SLASH))` — a
constant — and breaks when that holds, which for the POSIX separator
predicate is always.  `usize` subtractions that cannot underflow on the
reachable states are modelled by truncated `Nat` subtraction. -/
def normalizeStringGo (path : List Char) (allowAboveRoot : Bool) (sep : Char) :
    Nat → Nat → NormState → List Char
  | 0, _, st => st.res
  | fuel+1, i, st =>
    if i ≤ path.length then
      let code? : Option Char :=
        if i < path.length then some (path.getD i ' ')
        else if isPosixPathSeparator (some '/') then none
        else some '/'
      match code? with
      | none => st.res
      | some code =>
        if isPosixPathSeparator (some code) then
          if st.lastSlash == (i : Int) - 1 || st.dots == 1 then
            normalizeStringGo path allowAboveRoot sep fuel (i+1)
              { st with lastSlash := (i : Int), dots := 0 }
          else if st.dots == 2 then
            if st.res.length < 2 || st.lastSegmentLength ≠ 2 ||
                st.res.getD (st.res.length - 1) ' ' ≠ '.' ||
                st.res.getD (st.res.length - 2) ' ' ≠ '.' then
              if st.res.length > 2 then
                let lastSlashIndex := (rfindChar st.res sep).getD st.res.length
                let st' :=
                  if lastSlashIndex == st.res.length then
                    { st with res := [], lastSegmentLength := 0 }
                  else
                    let res' := st.res.take lastSlashIndex
                    { st with
                        res := res'
                        lastSegmentLength := res'.length - 1 - (rfindChar res' sep).getD 0 }
                normalizeStringGo path allowAboveRoot sep fuel (i+1)
                  { st' with lastSlash := (i : Int), dots := 0 }
              else if st.res.length ≠ 0 then
                normalizeStringGo path allowAboveRoot sep fuel (i+1)
                  { st with
                      res := []
                      lastSegmentLength := 0
                      lastSlash := (i : Int)
                      dots := 0 }
              else
                let st2 :=
                  if allowAboveRoot then
                    if st.res.isEmpty then
                      { st with res := ['.', '.'], lastSegmentLength := 2 }
                    else
                      { st with res := st.res ++ sep :: ['.', '.'], lastSegmentLength := 2 }
                  else st
                normalizeStringGo path allowAboveRoot sep fuel (i+1)
                  { st2 with lastSlash := (i : Int), dots := 0 }
            else
              let st2 :=
                if allowAboveRoot then
                  if st.res.isEmpty then
                    { st with res := ['.', '.'], lastSegmentLength := 2 }
                  else
                    { st with res := st.res ++ sep :: ['.', '.'], lastSegmentLength := 2 }
                else st
              normalizeStringGo path allowAboveRoot sep fuel (i+1)
                { st2 with lastSlash := (i : Int), dots := 0 }
          else
            let seg := sliceChars path ((st.lastSlash + 1).toNat) i
            let st' :=
              if st.res.isEmpty then
                { st with res := seg, lastSegmentLength := i - ((st.lastSlash + 1).toNat) }
              else
                { st with
                    res := st.res ++ sep :: seg
                    lastSegmentLength := i - ((st.lastSlash + 1).toNat) }
            normalizeStringGo path allowAboveRoot sep fuel (i+1)
              { st' with lastSlash := (i : Int), dots := 0 }
        else if code == '.' && st.dots ≠ -1 then
          normalizeStringGo path allowAboveRoot sep fuel (i+1) { st with dots := st.dots + 1 }
        else
          normalizeStringGo path allowAboveRoot sep fuel (i+1) { st with dots := -1 }
    else st.res

/-- Model of `PathNormalizer::normalize_string` instantiated with the POSIX
separator predicate, as the POSIX branch of `normalize` calls it. -/
def normalizeString (path : List Char) (allowAboveRoot : Bool) : List Char :=
  normalizeStringGo path allowAboveRoot '/' (path.length + 2) 0 ⟨[], 0, -1, 0⟩

/-- Model of the `cfg(not(windows))` branch of `PathNormalizer::normalize`. -/
def normalize (path : String) : String :=
  if path = "" then "."
  else
    let cs := path.data
    let isAbsolute := cs.head? == some '/'
    let trailingSeparator := !cs.isEmpty && cs.getLast? == some '/'
    let pathNormalized := normalizeString cs (!isAbsolute)
    if pathNormalized.isEmpty then
      if isAbsolute then "/"
      else if trailingSeparator then "./" else "."
    else
      let pathNormalized :=
        if trailingSeparator then pathNormalized ++ ['/'] else pathNormalized
      if isAbsolute then String.mk ('/' :: pathNormalized)
      else String.mk pathNormalized

/-! ## Rust `PathBuf` equality model

`operations::copy` and `operations::clone_file` compare
`paths::to_path_buf(a) == paths::to_path_buf(b)`, where `to_path_buf`
(paths.rs) is `PathBuf::from(PathNormalizer::normalize(path))` and `PathBuf`
equality is Rust std's component-wise comparison.  The component parser
below models `std::path::Path::components` for POSIX strings: the root is a
leading `/`; empty segments collapse; `.` segments are dropped except a
leading `.` on a rootless path; `..` is a parent-directory component. -/

/-- One `std::path::Component` (POSIX: no prefixes); segment names as
character lists. -/
inductive PathComp where
  | curDir
  | parentDir
  | normal (s : List Char)
deriving DecidableEq, Repr

/-- Parsed component view of a path string, mirroring
`Path::has_root` plus the `Components` iterator. -/
structure RustPath where
  hasRoot : Bool
  comps : List PathComp
deriving DecidableEq, Repr

/-- Split a character list at every occurrence of `c` (model of
`str::split` for a one-character pattern). -/
def splitChars (c : Char) : List Char → List (List Char)
  | [] => [[]]
  | a :: as =>
    let r := splitChars c as
    if a = c then [] :: r
    else
      match r with
      | h :: t => (a :: h) :: t
      | [] => [[a]]

/-- Classify one non-empty, non-`.` segment. -/
def segToComp (seg : List Char) : PathComp :=
  if seg = ['.', '.'] then .parentDir else .normal seg

/-- Model of `Path::components` on a POSIX path string: the root is a
leading `/`, empty segments collapse, `.` segments are dropped except a
leading `.` on a rootless path, `..` is a parent-directory component. -/
def rustComponents (s : String) : RustPath :=
  let cs := s.data
  let hasRoot := cs.head? = some '/'
  let raw := (splitChars '/' cs).filter (fun t => !t.isEmpty)
  let comps :=
    match raw with
    | [] => []
    | h :: t =>
      let tailComps := (t.filter (fun seg => seg ≠ ['.'])).map segToComp
      if h = ['.'] then
        (if hasRoot then [] else [PathComp.curDir]) ++ tailComps
      else segToComp h :: tailComps
  ⟨hasRoot, comps⟩

/-- Model of `paths::to_path_buf`: the `PathBuf` is carried as the
normalized string, compared componentwise by `pathBufEq`. -/
def to_path_buf (s : String) : String :=
  normalize s

/-- Rust `PathBuf == PathBuf` (component-wise comparison). -/
def pathBufEq (a b : String) : Bool :=
  decide (rustComponents a = rustComponents b)

/-! ## Error taxonomy (`FileIOService::map_error_to_code`, service.rs) -/

/-- Lowercased character view of an error message (`e.to_string().to_lowercase()`);
all messages involved are ASCII. -/
def toLowerChars (s : String) : List Char :=
  s.data.map Char.toLower

/-- Whether `needle` starts `hay` (helper for the substring test). -/
def isPrefixChars : List Char → List Char → Bool
  | [], _ => true
  | _ :: _, [] => false
  | a :: as, b :: bs => a == b && isPrefixChars as bs

/-- Whether `needle` occurs contiguously in `hay`; model of Rust
`str::contains` on ASCII strings. -/
def isInfixChars (needle : List Char) : List Char → Bool
  | [] => isPrefixChars needle []
  | c :: rest => isPrefixChars needle (c :: rest) || isInfixChars needle rest

/-- Model of `FileIOService::map_error_to_code`: case-insensitive substring
matching of the error message, any miss becoming `EIO`. -/
def map_error_to_code (msg : String) : String :=
  let e := toLowerChars msg
  if (isInfixChars "permission denied".data e) then "EPERM"
  else if (isInfixChars "no such file or directory".data e) then "ENOENT"
  else if (isInfixChars "is a directory".data e) then "EISDIR"
  else if (isInfixChars "not a directory".data e) then "ENOTDIR"
  else if (isInfixChars "file exists".data e) then "EEXIST"
  else if (isInfixChars "disk".data e && isInfixChars "full".data e) then "ENOSPC"
  else if (isInfixChars "too many".data e) then "EMFILE"
  else if (isInfixChars "invalid".data e) then "EINVAL"
  else "EIO"

/-! ## Copy (`operations::copy`) -/

/-- Observable outcome of `operations::copy`: the early no-op return, the
dispatch to `platform::copy_file`, or an error message. -/
inductive CopyOutcome where
  | noop
  | copied
  | err (message : String)
deriving DecidableEq, Repr

/-- Model of `operations::copy`.  `exists_` abstracts
`destination.exists()`, queried at the normalized destination. -/
def copy (exists_ : String → Bool) (source destination : String)
    (overwrite : Option Bool) : CopyOutcome :=
  let src := to_path_buf source
  let dst := to_path_buf destination
  let ow := overwrite.getD false
  if pathBufEq src dst then .noop
  else if exists_ dst && !ow then .err "Destination already exists"
  else .copied

/-! ## Atomic-write symlink guard (`operations::write_file_atomic`) -/

/-- Lstat-level view of a filesystem node: whether the node itself is a
symbolic link and, for links, whether the link target exists. -/
structure LNode where
  isSymlink : Bool
  targetExists : Bool
deriving DecidableEq, Repr

/-- Metadata record as returned by `std::fs::metadata`. -/
structure Meta where
  is_symlink : Bool
deriving DecidableEq, Repr

/-- Model of `std::fs::metadata(path)`: it FOLLOWS symbolic links, so it
fails on a dangling link and otherwise describes the resolved file, whose
`file_type().is_symlink()` is false by the documented contract of
`std::fs::metadata`. -/
def fsMetadata (fs : String → Option LNode) (path : String) : Option Meta :=
  match fs path with
  | none => none
  | some n =>
    if n.isSymlink then
      if n.targetExists then some ⟨false⟩ else none
    else some ⟨false⟩

/-- Control outcome of the guard at the head of `write_file_atomic`:
either the explicit symlink rejection, or the function proceeds to the
temp-file write, `sync_data` and rename over the target. -/
inductive AtomicWriteStep where
  | rejectedSymlink (message : String)
  | proceeded
deriving DecidableEq, Repr

/-- Model of the symlink check of `operations::write_file_atomic`
(`if let Ok(metadata) = std::fs::metadata(path) { if metadata.file_type().is_symlink() { return Err(..) } }`). -/
def write_file_atomic_guard (fs : String → Option LNode) (path : String) :
    AtomicWriteStep :=
  match fsMetadata fs path with
  | some m =>
    if m.is_symlink then
      .rejectedSymlink "Atomic writes are not supported for symbolic links"
    else .proceeded
  | none => .proceeded

/-! ## Handle registry (`operations.rs`: `open_file`, `close_file`,
`read_file_handle`, `write_file_handle`)

The process-wide state is `NEXT_HANDLE: Mutex<u32>` starting at 1 and
`HANDLE_MAP: Mutex<HashMap<u32, File>>`.  The map is modelled as an
association list from handle id to the path of the open file (the OS-level
`File` object and its cursor are abstracted away — the claims concern only
handle validity).  `u32` increment wraps, so the counter arithmetic is
`% 2^32`. -/

/-- One file node of the abstract filesystem used by the file I/O models. -/
structure FileNode where
  content : List Nat
  readonly : Bool
deriving DecidableEq, Repr

/-- Abstract filesystem: file node by path. -/
def Fs : Type := String → Option FileNode

/-- Point update of the abstract filesystem. -/
def fsSet (fs : Fs) (p : String) (n : FileNode) : Fs :=
  fun q => if q = p then some n else fs q

/-- The `OpenOptions` flags chosen by `open_file`:
`read(true).write(create).create(create).truncate(create)`. -/
structure OpenFlags where
  read : Bool
  write : Bool
  create : Bool
  truncate : Bool
deriving DecidableEq, Repr

/-- Registry state: the `NEXT_HANDLE` counter and the handle map. -/
structure RegState where
  nextHandle : Nat
  handles : List (Nat × String)
deriving DecidableEq, Repr

/-- Initial process-wide registry state (`NEXT_HANDLE = 1`, empty map). -/
def regInit : RegState := ⟨1, []⟩

/-- Whether handle `h` is present in the map. -/
def handlePresent (st : RegState) (h : Nat) : Bool :=
  st.handles.any (fun p => p.1 == h)

/-- Effect of `OpenOptions::open` on the abstract filesystem: truncation
empties an existing file, creation makes an empty one, opening a read-only
file for writing fails, opening a missing file without `create` fails. -/
def openEffect (fs : Fs) (path : String) (flags : OpenFlags) : Option Fs :=
  match fs path with
  | some node =>
    if node.readonly && flags.write then none
    else if flags.truncate && flags.write then
      some (fsSet fs path { node with content := [] })
    else some fs
  | none =>
    if flags.create && flags.write then some (fsSet fs path ⟨[], false⟩)
    else none

/-- Model of `operations::open_file`: defaulting of `create` (to true) and
`unlock` (to false), the existence check, the unlock permission clearing,
the `OpenOptions` chain, and the handle assignment
`handle = *next_handle; *next_handle += 1` followed by the map insert. -/
def open_file (fs : Fs) (st : RegState) (path : String)
    (create? unlock? : Option Bool) :
    Except String (OpenFlags × Fs × Nat × RegState) :=
  let create := create?.getD true
  let unlock := unlock?.getD false
  let exists_ := (fs path).isSome
  if !create && !exists_ then .error "File does not exist"
  else
    let fs1 :=
      if unlock && exists_ then
        match fs path with
        | some node => fsSet fs path { node with readonly := false }
        | none => fs
      else fs
    let flags : OpenFlags := ⟨true, create, create, create⟩
    match openEffect fs1 path flags with
    | none => .error "permission denied"
    | some fs2 =>
      let handle := st.nextHandle
      let st' : RegState := ⟨(st.nextHandle + 1) % 2^32, (handle, path) :: st.handles⟩
      .ok (flags, fs2, handle, st')

/-- Model of `operations::close_file` (`HANDLE_MAP.remove`). -/
def close_file (st : RegState) (h : Nat) : Except String RegState :=
  if handlePresent st h then
    .ok ⟨st.nextHandle, st.handles.filter (fun p => p.1 ≠ h)⟩
  else .error "Invalid handle"

/-- Model of `operations::read_file_handle`: only the handle lookup is
relevant here; the byte-level read on the `File` is abstracted away. -/
def read_file_handle (st : RegState) (h : Nat) : Except String Unit :=
  if handlePresent st h then .ok () else .error "Invalid handle"

/-- Model of `operations::write_file_handle`: only the handle lookup is
relevant here; the byte-level write on the `File` is abstracted away. -/
def write_file_handle (st : RegState) (h : Nat) : Except String Unit :=
  if handlePresent st h then .ok () else .error "Invalid handle"

/-- A filesystem on which every open succeeds. -/
def fsAlways : Fs := fun _ => some ⟨[], false⟩

/-- Registry state after `k` successful `OpenFile` calls from the initial
process state. -/
def openIter : Nat → RegState
  | 0 => regInit
  | k+1 =>
    match open_file fsAlways (openIter k) "/f" none none with
    | .ok (_, _, _, st') => st'
    | .error _ => openIter k

/-- Handle id returned by the `(k+1)`-th `OpenFile` call of that run. -/
def handleReturned (k : Nat) : Option Nat :=
  match open_file fsAlways (openIter k) "/f" none none with
  | .ok (_, _, h, _) => some h
  | .error _ => none

/-! ## Watcher data model (`src/cli/src/services/watcher/types.rs`) -/

/-- `FileChangeType` (types.rs). -/
inductive FileChangeType where
  | Updated
  | Added
  | Deleted
deriving DecidableEq, Repr

/-- `FileChange` (types.rs); `u32` correlation ids as `Nat`, `i64` mtimes
as `Int`. -/
structure FileChange where
  resource : String
  change_type : FileChangeType
  correlation_id : Option Nat
  mtime : Option Int
deriving DecidableEq, Repr

/-! ## Association-list helpers (model of the `HashMap` operations used by
the suspender and the coalescer; keyed access only, so an insertion-ordered
association list is an adequate model of the map contents) -/

/-- Keyed lookup (`HashMap::get`). -/
def assocGet? {α : Type} : List (String × α) → String → Option α
  | [], _ => none
  | p :: t, k => if p.1 = k then some p.2 else assocGet? t k

/-- Keyed insert-or-overwrite (`HashMap::insert` / `entry().or_insert`),
updating in place when the key is present and appending otherwise, so the
list keeps first-insertion order. -/
def assocSet {α : Type} : List (String × α) → String → α → List (String × α)
  | [], k, v => [(k, v)]
  | p :: t, k, v => if p.1 = k then (k, v) :: t else p :: assocSet t k v

/-- Keyed removal (`HashMap::remove`). -/
def assocRemove {α : Type} : List (String × α) → String → List (String × α)
  | [], _ => []
  | p :: t, k => if p.1 = k then assocRemove t k else p :: assocRemove t k

/-! ## Suspend supervisor (`src/cli/src/services/watcher/suspend.rs`)

`WatcherSuspender` keyed by path (`PathBuf` rendered as a string).  The
monitoring method, task handle and start time of a `SuspendedInfo` have no
bearing on the checked properties, so the `suspended` map is modelled by
its key set; `path.exists()`, the current time and the
`pathbuf_to_file_uri` rendering are parameters. -/

/-- Suspender state: suspended key set, correlation map, failure counters
(`u32`, wrapping). -/
structure SuspenderState where
  suspended : List String
  correlationMap : List (String × Option Nat)
  failures : List (String × Nat)
deriving DecidableEq, Repr

/-- Empty suspender (`WatcherSuspender::new`). -/
def suspenderInit : SuspenderState := ⟨[], [], []⟩

/-- `WatcherSuspender::is_suspended` (`suspended.contains_key`). -/
def is_suspended (s : SuspenderState) (path : String) : Bool :=
  decide (path ∈ s.suspended)

/-- `WatcherSuspender::suspend`: no-op when already suspended, else record
the suspension (monitoring method abstracted). -/
def suspend (s : SuspenderState) (path : String) : SuspenderState :=
  if path ∈ s.suspended then s
  else { s with suspended := path :: s.suspended }

/-- `WatcherSuspender::record_failure`: increment the per-path counter
(`u32`, so mod `2^32`), suspend when it reaches 5. -/
def record_failure (s : SuspenderState) (path : String) : SuspenderState :=
  let count := ((assocGet? s.failures path).getD 0 + 1) % 2^32
  let s1 := { s with failures := assocSet s.failures path count }
  if count ≥ 5 then suspend s1 path else s1

/-- `WatcherSuspender::record_success`: drop the per-path counter. -/
def record_success (s : SuspenderState) (path : String) : SuspenderState :=
  { s with failures := assocRemove s.failures path }

/-- `WatcherSuspender::resume`: drop suspension state and failure count. -/
def resume (s : SuspenderState) (path : String) : SuspenderState :=
  { s with
      suspended := s.suspended.filter (fun q => q ≠ path)
      failures := assocRemove s.failures path }

/-- `WatcherSuspender::set_correlation_id`. -/
def set_correlation_id (s : SuspenderState) (path : String)
    (correlation_id : Option Nat) : SuspenderState :=
  { s with correlationMap := assocSet s.correlationMap path correlation_id }

/-- Model of `WatcherSuspender::check_resurrection`: returns the boolean
result, the events emitted through the callback, and the next state.
`exists_` abstracts `path.exists()`, `now` the mtime stamp, `uri` the
`pathbuf_to_file_uri` rendering of `path`. -/
def check_resurrection (s : SuspenderState) (path : String) (c_id : Option Nat)
    (exists_ : Bool) (now : Int) (uri : String) :
    Bool × List FileChange × SuspenderState :=
  if path ∉ s.suspended then (false, [], s)
  else if exists_ then
    let correlationId := ((assocGet? s.correlationMap path).join).or c_id
    (true, [⟨uri, .Added, correlationId, some now⟩], resume s path)
  else (false, [], s)

/-! ## Event coalescer (`src/cli/src/services/watcher/coalescer.rs`)

`coalesce_events` first folds the batch into
`events_by_resource: HashMap<String, FileChange>`, then iterates
`events_by_resource.values()` to apply the parent-delete pruning.  The map
contents are modelled as an insertion-ordered association list; because
Rust `HashMap` iteration order is unspecified, the `.values()` iteration is
taken as an explicit `order` parameter, constrained in the theorems to be a
permutation of that association list.  `file_uri_to_pathbuf` (the `url`
crate) and `should_include_path` (the `globset` crate) are external-crate
calls and enter as the parameters `u` and `inc`; paths are component
lists, on which `Path::starts_with`/`strip_prefix` are prefix
operations. -/

/-- Model of `EventCoalescer::coalesce_single_event`. -/
def coalesce_single_event (existing new : FileChange) : Option FileChange :=
  match existing.change_type, new.change_type with
  | .Added, .Deleted => none
  | .Deleted, .Added =>
    some ⟨existing.resource, .Updated, new.correlation_id, new.mtime⟩
  | .Added, .Updated =>
    some ⟨existing.resource, .Added, new.correlation_id, new.mtime⟩
  | .Updated, .Deleted =>
    some ⟨existing.resource, .Deleted, new.correlation_id, new.mtime⟩
  | .Added, .Added =>
    some ⟨existing.resource, existing.change_type, new.correlation_id, new.mtime⟩
  | .Updated, .Updated =>
    some ⟨existing.resource, existing.change_type, new.correlation_id, new.mtime⟩
  | .Deleted, .Deleted =>
    some ⟨existing.resource, existing.change_type, new.correlation_id, new.mtime⟩
  | .Updated, .Added =>
    some ⟨existing.resource, .Updated, new.correlation_id, new.mtime⟩
  | .Deleted, .Updated =>
    some ⟨existing.resource, .Updated, new.correlation_id, new.mtime⟩

/-- One step of the first loop of `coalesce_events`: URI conversion (skip
invalid), glob filtering, then collapse into the per-resource map. -/
def collapseInto (u : String → Option (List String)) (inc : List String → Bool)
    (m : List (String × FileChange)) (event : FileChange) :
    List (String × FileChange) :=
  match u event.resource with
  | none => m
  | some path =>
    if !inc path then m
    else
      match assocGet? m event.resource with
      | some existing =>
        match coalesce_single_event existing event with
        | some coalesced => assocSet m event.resource coalesced
        | none => assocRemove m event.resource
      | none => m ++ [(event.resource, event)]

/-- The `events_by_resource` map built by the first loop, as an
insertion-ordered association list. -/
def coalesceMap (u : String → Option (List String)) (inc : List String → Bool)
    (events : List FileChange) : List (String × FileChange) :=
  events.foldl (collapseInto u inc) []

/-- The `deleted_paths` set: paths of the entries with a `Deleted` change
type (membership queries only, so a list is an adequate set model). -/
def deletedPaths (u : String → Option (List String)) (vals : List FileChange) :
    List (List String) :=
  (vals.filter (fun e => e.change_type == .Deleted)).filterMap (fun e => u e.resource)

/-- The skip test of the parent-delete loop: another deleted path is a
strict ancestor (`deleted_path != path`, `path.starts_with(deleted_path)`,
non-empty `strip_prefix` remainder). -/
def shouldSkipDeleted (dps : List (List String)) (path : List String) : Bool :=
  dps.any (fun dp => dp ≠ path && dp.isPrefixOf path && !(path.drop dp.length).isEmpty)

/-- The second loop of `coalesce_events` over the value iteration `vals`:
keep every entry except `Deleted` ones dominated by a deleted ancestor. -/
def finalizeEvents (u : String → Option (List String)) (vals : List FileChange) :
    List FileChange :=
  vals.filter (fun e =>
    !(e.change_type == .Deleted &&
      (match u e.resource with
       | some path => shouldSkipDeleted (deletedPaths u vals) path
       | none => false)))

/-- Model of `EventCoalescer::coalesce_events`; `order` is the `HashMap`
value-iteration order (see the section comment). -/
def coalesce_events (u : String → Option (List String)) (inc : List String → Bool)
    (events : List FileChange) (order : List (String × FileChange)) :
    List FileChange :=
  finalizeEvents u (order.map Prod.snd)

/-- Concrete `file://` URI conversion used to instantiate the parameter `u`
in witnesses: model of `Url::parse` + `to_file_path` on simple
`file:///…` URIs (component list of the path after the scheme). -/
def uriToPathModel (s : String) : Option (List String) :=
  match s.data with
  | 'f' :: 'i' :: 'l' :: 'e' :: ':' :: '/' :: '/' :: rest =>
    some (((splitChars '/' rest).filter (fun t => !t.isEmpty)).map String.mk)
  | _ => none

/-- Demonstration batch (the spec's coalescer-collapse scenario):
`Added /x, Deleted /x, Added /y, Deleted /z/child, Deleted /z`. -/
def demoEvents : List FileChange :=
  [⟨"file:///x", .Added, none, none⟩, ⟨"file:///x", .Deleted, none, none⟩,
   ⟨"file:///y", .Added, none, none⟩,
   ⟨"file:///z/child", .Deleted, none, none⟩, ⟨"file:///z", .Deleted, none, none⟩]

/-- Two-path batch used to exhibit the unspecified output order. -/
def abEvents : List FileChange :=
  [⟨"file:///a", .Added, none, none⟩, ⟨"file:///b", .Added, none, none⟩]

/-! ## ReadFileStream (`operations::read_file_stream`) -/

/-- `ReadFileStreamOptions` (types.rs): `start`, `length`, `buffer_size`. -/
structure ReadFileStreamOptions where
  start : Option Nat
  length : Option Nat
  buffer_size : Option Nat
deriving DecidableEq, Repr

/-- `ReadFileStreamResponse` (types.rs): one chunk and the done flag. -/
structure ReadFileStreamResponse where
  chunk : List Nat
  done : Bool
deriving DecidableEq, Repr

/-- Model of `operations::read_file_stream` on an existing file with byte
`content`: a fresh `File::open` reads from offset 0 into a buffer of
`options.buffer_size` (default `256 * 1024`) bytes, the buffer is truncated
to the bytes read, and `done = (bytes_read == 0)`.  `options.start` and
`options.length` are never consulted by the implementation. -/
def read_file_stream (content : List Nat)
    (options : Option ReadFileStreamOptions) : ReadFileStreamResponse :=
  let buffer_size := (options.bind (fun o => o.buffer_size)).getD (256 * 1024)
  let chunk := content.take buffer_size
  ⟨chunk, chunk.length == 0⟩

/-! ## Two-path lock acquisition (`FileIOService::process_request`,
service.rs)

The `Copy`, `Rename` and `Clone` arms call
`locks.acquire_lock(&first).await` then `locks.acquire_lock(&second).await`;
`ResourceLockManager::acquire_lock` keys the semaphore by
`PathNormalizer::normalize(resource_path)` (locks.rs).  The acquisition
order is modelled as the trace of lock keys in acquisition order. -/

/-- Strict lexicographic order on character lists (standard string
comparison, as `String: Ord` compares in Rust). -/
def lexLtChars : List Char → List Char → Bool
  | [], [] => false
  | [], _ :: _ => true
  | _ :: _, [] => false
  | a :: as, b :: bs => if a = b then lexLtChars as bs else decide (a < b)

/-- Append one `acquire_lock` call to an acquisition trace. -/
def acquire_lock_trace (trace : List String) (resource_path : String) :
    List String :=
  trace ++ [normalize resource_path]

/-- Lock keys acquired by the `Copy` arm, in order: `req.source` then
`req.destination`. -/
def copyLockTrace (source destination : String) : List String :=
  acquire_lock_trace (acquire_lock_trace [] source) destination

/-- Lock keys acquired by the `Rename` arm, in order: `req.old_path` then
`req.new_path`. -/
def renameLockTrace (old_path new_path : String) : List String :=
  acquire_lock_trace (acquire_lock_trace [] old_path) new_path

/-- Lock keys acquired by the `Clone` arm, in order: `req.source` then
`req.destination`. -/
def cloneLockTrace (source destination : String) : List String :=
  acquire_lock_trace (acquire_lock_trace [] source) destination

/-! # Theorems -/

/-- C9: the claim states that path normalization is idempotent and total
with `normalize "" = "."`.  The empty-string clause holds, but idempotence
fails on the code: `normalize_string` leaves its loop at `i == len` through
the constantly-true test `is_path_sep(Some(CHAR_FORWARD_SLASH))` before the
final segment is flushed, so `normalize "a/b" = "a"` while
`normalize "a" = "."`.  The last three conjuncts evaluate the inputs of the
repository's own unit tests (`paths.rs`, `tests::unix::test_normalize`),
which expect `".."`, `"/foo"` and `"/foo"` respectively and are violated by
the implementation. -/
theorem c9_normalize_not_idempotent :
    normalize "" = "."
    ∧ normalize "a/b" = "a"
    ∧ normalize (normalize "a/b") = "."
    ∧ normalize (normalize "a/b") ≠ normalize "a/b"
    ∧ normalize ".." = "."
    ∧ normalize "/foo" = "/"
    ∧ normalize "/foo/bar/.." = "/foo/bar" :=
  ⟨rfl, by decide, by decide, by decide, by decide, by decide, by decide⟩

/-- C3: the claim states an atomic `WriteFile` on a symbolic-link target is
rejected with error code `EINVAL`.  On the code the guard is dead:
`write_file_atomic` stats the target with `std::fs::metadata`, which
follows symbolic links, so `file_type().is_symlink()` is false whenever the
stat succeeds and the write-and-rename proceeds on every input — including
a symlink to an existing file (first conjunct).  Moreover even the guard's
own message would map to `EIO`, not `EINVAL` (third conjunct). -/
theorem c3_atomic_symlink_guard_dead :
    write_file_atomic_guard
        (fun p => if p == "/ln" then some ⟨true, true⟩ else none) "/ln" = .proceeded
    ∧ (∀ fs path, write_file_atomic_guard fs path = .proceeded)
    ∧ map_error_to_code "Atomic writes are not supported for symbolic links" = "EIO" := by
  refine ⟨rfl, ?_, by decide⟩
  intro fs path
  unfold write_file_atomic_guard fsMetadata
  cases h : fs path with
  | none => simp
  | some n => cases hn : n.isSymlink <;> cases ht : n.targetExists <;> simp [hn, ht]

/-- C7 counterexample: for the Copy / Rename / Clone request with
source (old) `"/b/"` and destination (new) `"/a/"`, the lock of `"/b/"`
is acquired first even though `"/a/"` is lexicographically smaller, so the
claimed always-lexicographic acquisition order is false. -/
theorem c7_counterexample :
    copyLockTrace "/b/" "/a/" = ["/b/", "/a/"]
    ∧ renameLockTrace "/b/" "/a/" = ["/b/", "/a/"]
    ∧ cloneLockTrace "/b/" "/a/" = ["/b/", "/a/"]
    ∧ lexLtChars "/a/".data "/b/".data = true :=
  ⟨by decide, by decide, by decide, by decide⟩

/-- C7 (amended): the `Copy`, `Rename` and `Clone` arms of
`process_request` acquire the two per-path locks in request order — the
source (old) path's normalized key first, then the destination (new)
path's — with no lexicographic sorting. -/
theorem c7_lock_order_is_request_order (a b : String) :
    copyLockTrace a b = [normalize a, normalize b]
    ∧ renameLockTrace a b = [normalize a, normalize b]
    ∧ cloneLockTrace a b = [normalize a, normalize b] :=
  ⟨rfl, rfl, rfl⟩

/-- C2 counterexample: with the destination present and `overwrite` absent,
`copy` fails with the literal message `"Destination already exists"`, and
`map_error_to_code` sends that message to `"EIO"` (it contains none of the
matched substrings, in particular not `"file exists"`), so the claimed
`EEXIST` envelope code is false. -/
theorem c2_counterexample :
    copy (fun p => p == "/dst/") "/src/" "/dst/" none = .err "Destination already exists"
    ∧ map_error_to_code "Destination already exists" = "EIO"
    ∧ ("EIO" : String) ≠ "EEXIST" :=
  ⟨by decide, by decide, by decide⟩

/-- C2 (amended): a Copy whose normalized source equals its normalized
destination succeeds as a no-op without touching the filesystem; when the
paths differ, the destination exists and overwrite is false or absent, the
operation fails with the message `"Destination already exists"`, whose
mapped envelope code is `"EIO"` (not `EEXIST`). -/
theorem c2_copy_noop_and_exists_maps_to_eio :
    (∀ exists_ source destination overwrite,
        normalize source = normalize destination →
        copy exists_ source destination overwrite = .noop)
    ∧ (∀ exists_ source destination overwrite,
        pathBufEq (to_path_buf source) (to_path_buf destination) = false →
        exists_ (to_path_buf destination) = true →
        overwrite.getD false = false →
        copy exists_ source destination overwrite = .err "Destination already exists"
        ∧ map_error_to_code "Destination already exists" = "EIO") := by
  constructor
  · intro exists_ source destination overwrite h
    simp [copy, to_path_buf, pathBufEq, h]
  · intro exists_ source destination overwrite hne hex how
    refine ⟨?_, by decide⟩
    simp [copy, to_path_buf, pathBufEq] at hne ⊢
    simp [hne, to_path_buf] at hex ⊢
    simp [hex, how]

/-- C2 witness: both branches of the amended statement exercised at
concrete inputs. -/
theorem c2_witness :
    (normalize "/x/" = normalize "/x/"
     ∧ copy (fun _ => false) "/x/" "/x/" none = .noop)
    ∧ (pathBufEq (to_path_buf "/src/") (to_path_buf "/dst/") = false
       ∧ (to_path_buf "/dst/" == "/dst/") = true
       ∧ (none : Option Bool).getD false = false
       ∧ copy (fun p => p == "/dst/") "/src/" "/dst/" none = .err "Destination already exists"
       ∧ map_error_to_code "Destination already exists" = "EIO") :=
  ⟨⟨rfl, c2_copy_noop_and_exists_maps_to_eio.1 _ "/x/" "/x/" none rfl⟩,
   by decide, by decide, by decide,
   (c2_copy_noop_and_exists_maps_to_eio.2 (fun p => p == "/dst/") "/src/" "/dst/" none
     (by decide) (by decide) (by decide)).1,
   (c2_copy_noop_and_exists_maps_to_eio.2 (fun p => p == "/dst/") "/src/" "/dst/" none
     (by decide) (by decide) (by decide)).2⟩

/-- C8: the claim states that repeatedly issuing `ReadFileStream` until
`done = true` concatenates to the file content.  The per-call half of the
claim holds (one chunk of at most `buffer_size` bytes, `done` iff the read
returned zero bytes), but the iteration cannot terminate on a non-empty
file: every call opens the file afresh and reads from offset 0 —
`options.start`/`options.length` are never consulted — so on a 1-byte file
every call returns the same 1-byte chunk with `done = false`, and
concatenated chunks never equal the file. -/
theorem c8_stream_restarts_every_call :
    (∀ s l, read_file_stream [104] (some ⟨s, l, some 262144⟩) = ⟨[104], false⟩)
    ∧ read_file_stream [] (some ⟨none, none, some 262144⟩) = ⟨[], true⟩
    ∧ (∀ content options,
        (read_file_stream content options).done
          = ((read_file_stream content options).chunk.length == 0))
    ∧ ([104] ++ [104] : List Nat) ≠ [104] :=
  ⟨fun _ _ => rfl, rfl, fun _ _ => rfl, by decide⟩

/-- C10: `open_file` with the `create` field absent behaves exactly as
`create = true` (first conjunct), and then opens with
read+write+create+truncate, so an existing (writable) file's content is
truncated to zero bytes (second conjunct). -/
theorem c10_open_default_create_truncates :
    (∀ fs st path unlock?, open_file fs st path none unlock?
        = open_file fs st path (some true) unlock?)
    ∧ (∀ fs st path node, fs path = some node → node.readonly = false →
        open_file fs st path none none =
          .ok (⟨true, true, true, true⟩, fsSet fs path { node with content := [] },
               st.nextHandle,
               ⟨(st.nextHandle + 1) % 2^32, (st.nextHandle, path) :: st.handles⟩)) := by
  constructor
  · intro fs st path unlock?
    rfl
  · intro fs st path node h hro
    unfold open_file openEffect
    simp [h, hro]

/-- C10 witness: opening an existing 1-byte file with `create` absent
truncates it and returns handle 1 from the initial registry state. -/
theorem c10_witness :
    ((fun q => if q = "/t" then some (⟨[104], false⟩ : FileNode) else none) "/t"
        = some (⟨[104], false⟩ : FileNode))
    ∧ (⟨[104], false⟩ : FileNode).readonly = false
    ∧ open_file (fun q => if q = "/t" then some ⟨[104], false⟩ else none) regInit "/t" none none =
        .ok (⟨true, true, true, true⟩,
             fsSet (fun q => if q = "/t" then some ⟨[104], false⟩ else none) "/t"
               { (⟨[104], false⟩ : FileNode) with content := [] },
             regInit.nextHandle,
             ⟨(regInit.nextHandle + 1) % 2^32, (regInit.nextHandle, "/t") :: regInit.handles⟩) :=
  ⟨rfl, rfl,
   c10_open_default_create_truncates.2
     (fun q => if q = "/t" then some ⟨[104], false⟩ else none) regInit "/t"
     ⟨[104], false⟩ (by simp) rfl⟩

/-! ## Helper lemmas for the association-list model -/

theorem assocGet?_set_self {α : Type} (m : List (String × α)) (k : String) (v : α) :
    assocGet? (assocSet m k v) k = some v := by
  induction m with
  | nil => simp [assocSet, assocGet?]
  | cons p t ih =>
    by_cases h : p.1 = k <;> simp [assocSet, assocGet?, h, ih]

theorem assocGet?_set_ne {α : Type} (m : List (String × α)) (k k' : String) (v : α)
    (h : k' ≠ k) : assocGet? (assocSet m k v) k' = assocGet? m k' := by
  have hkk : ¬(k = k') := fun hh => h hh.symm
  induction m with
  | nil => simp [assocSet, assocGet?, hkk]
  | cons p t ih =>
    by_cases hp : p.1 = k <;> simp [assocSet, assocGet?, hp, ih, hkk]

theorem assocGet?_remove_self {α : Type} (m : List (String × α)) (k : String) :
    assocGet? (assocRemove m k) k = none := by
  induction m with
  | nil => simp [assocRemove, assocGet?]
  | cons p t ih =>
    by_cases h : p.1 = k <;> simp [assocRemove, assocGet?, h, ih]

/-- Membership in a filtered suspension list, for keys other than the
removed one. -/
theorem mem_filter_ne (l : List String) (p q : String) (h : q ≠ p) :
    (q ∈ l.filter (fun x => x ≠ p)) ↔ q ∈ l := by
  simp [List.mem_filter, h]

/-! ## C4: handle registry -/

/-- One successful `OpenFile` step on the always-succeeding filesystem. -/
theorem open_file_fsAlways_step (st : RegState) :
    open_file fsAlways st "/f" none none =
      .ok (⟨true, true, true, true⟩, fsSet fsAlways "/f" ⟨[], false⟩, st.nextHandle,
           ⟨(st.nextHandle + 1) % 2^32, (st.nextHandle, "/f") :: st.handles⟩) := rfl

/-- Counter value after `k` opens: `(1 + k) % 2^32`. -/
theorem openIter_nextHandle (k : Nat) :
    (openIter k).nextHandle = (1 + k) % 2^32 := by
  induction k with
  | zero =>
    show (1 : Nat) = (1 + 0) % 2^32
    norm_num
  | succ k ih =>
    have h1 : (openIter (k+1)).nextHandle = ((openIter k).nextHandle + 1) % 2^32 := by
      simp only [openIter, open_file_fsAlways_step]
    rw [h1, ih]
    conv_rhs => rw [show 1 + (k + 1) = (1 + k) + 1 by ring]
    rw [Nat.add_mod (1 + k) 1]
    norm_num

/-- The handle id returned by the `(k+1)`-th open. -/
theorem handleReturned_eq (k : Nat) :
    handleReturned k = some ((1 + k) % 2^32) := by
  rw [handleReturned, open_file_fsAlways_step, openIter_nextHandle]

/-- C4 counterexample: handle ids ARE reused within a process lifetime —
the first `OpenFile` returns handle 1 and, the `u32` counter having wrapped,
the `(2^32 + 1)`-th `OpenFile` returns handle 1 again. -/
theorem c4_counterexample :
    handleReturned 0 = some 1 ∧ handleReturned (2^32) = some 1 ∧ (0 : Nat) ≠ 2^32 := by
  refine ⟨?_, ?_, by norm_num⟩
  · rw [handleReturned_eq]; norm_num
  · rw [handleReturned_eq, Nat.add_comm, Nat.add_mod_left]; norm_num

/-- C4 (amended): handle ids come from the process-wide counter starting
at 1 and incremented mod `2^32` per open (conjuncts 1–2); they are pairwise
distinct while fewer than `2^32` opens have occurred (conjunct 3); a
missing handle makes `CloseFile` / `ReadFileHandle` / `WriteFileHandle`
return the Invalid-handle error (conjunct 4); a successful `CloseFile`
removes the handle (conjunct 5), and closing some other handle cannot
revive it (conjunct 6). -/
theorem c4_handle_lifecycle :
    (∀ fs st path c? u? flags fs2 h st',
        open_file fs st path c? u? = .ok (flags, fs2, h, st') →
        h = st.nextHandle ∧ st'.nextHandle = (st.nextHandle + 1) % 2^32
          ∧ st'.handles = (st.nextHandle, path) :: st.handles)
    ∧ (∀ k, handleReturned k = some ((1 + k) % 2^32))
    ∧ (∀ i j, i < 2^32 → j < 2^32 → i ≠ j → handleReturned i ≠ handleReturned j)
    ∧ (∀ st h, handlePresent st h = false →
        close_file st h = .error "Invalid handle"
        ∧ read_file_handle st h = .error "Invalid handle"
        ∧ write_file_handle st h = .error "Invalid handle")
    ∧ (∀ st h st', close_file st h = .ok st' → handlePresent st' h = false)
    ∧ (∀ st h h' st', close_file st h' = .ok st' →
        handlePresent st h = false → handlePresent st' h = false) := by
  refine ⟨?_, handleReturned_eq, ?_, ?_, ?_, ?_⟩
  · intro fs st path c? u? flags fs2 h st' hok
    simp only [open_file] at hok
    split at hok
    · cases hok
    · split at hok
      · cases hok
      · simp only [Except.ok.injEq, Prod.mk.injEq] at hok
        obtain ⟨-, -, hh, hst⟩ := hok
        exact ⟨hh.symm, by rw [← hst], by rw [← hst]⟩
  · intro i j hi hj hne
    rw [handleReturned_eq, handleReturned_eq]
    intro hsome
    rw [Option.some.injEq] at hsome
    have hN : (2 : Nat)^32 = 4294967296 := by norm_num
    rw [hN] at hsome hi hj
    omega
  · intro st h hpres
    unfold close_file read_file_handle write_file_handle
    rw [hpres]
    exact ⟨rfl, rfl, rfl⟩
  · intro st h st' hok
    unfold close_file at hok
    split at hok
    · simp only [Except.ok.injEq] at hok
      rw [← hok]
      unfold handlePresent
      simp [List.any_eq_true, List.mem_filter]
    · exact absurd hok (by simp)
  · intro st h h' st' hok habs
    unfold close_file at hok
    split at hok
    · simp only [Except.ok.injEq] at hok
      rw [← hok]
      unfold handlePresent at habs ⊢
      rw [Bool.eq_false_iff] at habs ⊢
      intro htrue
      rw [List.any_eq_true] at htrue
      obtain ⟨p, hmem, hbeq⟩ := htrue
      rw [List.mem_filter] at hmem
      exact habs (List.any_eq_true.mpr ⟨p, hmem.1, hbeq⟩)
    · exact absurd hok (by simp)

/-- C4 witness: the amended statement exercised at concrete inputs —
a concrete open, two distinct early opens, and a concrete
open/close/reuse-attempt sequence. -/
theorem c4_witness :
    (open_file fsAlways regInit "/f" none none =
        .ok (⟨true, true, true, true⟩, fsSet fsAlways "/f" ⟨[], false⟩, 1, ⟨2 % 2^32, [(1, "/f")]⟩)
      ∧ (1 : Nat) = regInit.nextHandle)
    ∧ ((0 : Nat) < 2^32 ∧ (1 : Nat) < 2^32 ∧ (0 : Nat) ≠ 1
        ∧ handleReturned 0 ≠ handleReturned 1)
    ∧ (handlePresent ⟨5, []⟩ 7 = false ∧ close_file ⟨5, []⟩ 7 = .error "Invalid handle"
        ∧ read_file_handle ⟨5, []⟩ 7 = .error "Invalid handle"
        ∧ write_file_handle ⟨5, []⟩ 7 = .error "Invalid handle")
    ∧ (close_file ⟨5, [(7, "/f")]⟩ 7 = .ok ⟨5, []⟩
        ∧ handlePresent (⟨5, []⟩ : RegState) 7 = false) := by
  have h4 := c4_handle_lifecycle.2.2.2.1 ⟨5, []⟩ 7 (by decide)
  refine ⟨⟨open_file_fsAlways_step regInit, rfl⟩,
          ⟨by norm_num, by norm_num, by norm_num,
           c4_handle_lifecycle.2.2.1 0 1 (by norm_num) (by norm_num) (by norm_num)⟩,
          ⟨by decide, h4.1, h4.2.1, h4.2.2⟩,
          ⟨rfl, c4_handle_lifecycle.2.2.2.2.1 ⟨5, [(7, "/f")]⟩ 7 ⟨5, []⟩ rfl⟩⟩

/-! ## C5: suspend supervisor -/

/-- C5: `record_failure` increments the per-path counter (mod `2^32`) and
the path becomes suspended exactly when the new count reaches 5 (conjuncts
1–3, also: other paths unaffected); `record_success` resets the count and
suspends nothing (conjunct 4); `set_correlation_id` suspends nothing
(conjunct 5); `check_resurrection` returns true iff the path is suspended
and exists on disk, in which case it emits exactly one synthetic `Added`
change stamped with the stored correlation id falling back to the provided
one and drops the suspension, and otherwise it returns false, emits
nothing and leaves the state unchanged (conjunct 6). -/
theorem c5_suspension_protocol :
    (∀ s p, assocGet? (record_failure s p).failures p
        = some (((assocGet? s.failures p).getD 0 + 1) % 2^32))
    ∧ (∀ s p, is_suspended (record_failure s p) p
        = (is_suspended s p || decide (5 ≤ ((assocGet? s.failures p).getD 0 + 1) % 2^32)))
    ∧ (∀ s p q, q ≠ p → is_suspended (record_failure s p) q = is_suspended s q)
    ∧ (∀ s p q, assocGet? (record_success s p).failures p = none
        ∧ is_suspended (record_success s p) q = is_suspended s q)
    ∧ (∀ s p q cid, is_suspended (set_correlation_id s p cid) q = is_suspended s q)
    ∧ (∀ s p cid ex now uri,
        (check_resurrection s p cid ex now uri).1 = (is_suspended s p && ex)
        ∧ (check_resurrection s p cid ex now uri).2.1
            = (if is_suspended s p && ex
               then [⟨uri, .Added, ((assocGet? s.correlationMap p).join).or cid, some now⟩]
               else [])
        ∧ ((is_suspended s p && ex) = false →
            check_resurrection s p cid ex now uri = (false, [], s))
        ∧ is_suspended (check_resurrection s p cid ex now uri).2.2 p
            = (is_suspended s p && !ex)
        ∧ (∀ q, q ≠ p →
            is_suspended (check_resurrection s p cid ex now uri).2.2 q
              = is_suspended s q)) := by
  refine ⟨?_, ?_, ?_, ?_, ?_, ?_⟩
  · intro s p
    simp only [record_failure]
    split
    · unfold suspend
      split <;> simp [assocGet?_set_self]
    · simp [assocGet?_set_self]
  · intro s p
    simp only [record_failure]
    split
    · rename_i hge
      unfold suspend is_suspended
      split <;> rename_i hmem <;> simp_all
    · rename_i hlt
      unfold is_suspended
      simp_all
  · intro s p q hqp
    simp only [record_failure]
    split
    · unfold suspend is_suspended
      split <;> simp [List.mem_cons, hqp]
    · rfl
  · intro s p q
    exact ⟨assocGet?_remove_self s.failures p, rfl⟩
  · intro s p q cid
    rfl
  · intro s p cid ex now uri
    simp only [check_resurrection]
    by_cases hmem : p ∈ s.suspended
    · rw [if_neg (fun hn => hn hmem)]
      have hsusp : is_suspended s p = true := by simp [is_suspended, hmem]
      cases ex with
      | true =>
        rw [if_pos rfl]
        refine ⟨by simp [hsusp], by simp [hsusp], ?_, ?_, ?_⟩
        · intro hfalse
          rw [hsusp] at hfalse
          simp at hfalse
        · simp [is_suspended, resume, List.mem_filter, hsusp]
        · intro q hqp
          simp [is_suspended, resume, List.mem_filter, hqp]
      | false =>
        rw [if_neg (by simp)]
        refine ⟨by simp [hsusp], by simp [hsusp], fun _ => rfl, by simp [hsusp], fun q _ => rfl⟩
    · rw [if_pos hmem]
      have hsusp : is_suspended s p = false := by simp [is_suspended, hmem]
      refine ⟨by simp [hsusp], by simp [hsusp], fun _ => rfl, by simp [hsusp], fun q _ => rfl⟩

/-- C5 witness: the protocol exercised at a concrete state — four failures
do not suspend, the fifth does, and resurrection of an existing path emits
the stored-cId `Added` event and unsuspends. -/
theorem c5_witness :
    (is_suspended (record_failure ⟨[], [("/w", some 9)], [("/w", 4)]⟩ "/w") "/w"
        = (is_suspended ⟨[], [("/w", some 9)], [("/w", 4)]⟩ "/w"
            || decide (5 ≤ ((assocGet? ([("/w", 4)] : List (String × Nat)) "/w").getD 0 + 1) % 2^32)))
    ∧ (check_resurrection ⟨["/w"], [("/w", some 9)], []⟩ "/w" (some 3) true 100 "file:///w").1
        = (is_suspended ⟨["/w"], [("/w", some 9)], []⟩ "/w" && true)
    ∧ (check_resurrection ⟨["/w"], [("/w", some 9)], []⟩ "/w" (some 3) true 100 "file:///w").2.1
        = (if is_suspended ⟨["/w"], [("/w", some 9)], []⟩ "/w" && true
           then [⟨"file:///w", .Added,
                  ((assocGet? ([("/w", some 9)] : List (String × Option Nat)) "/w").join).or (some 3),
                  some 100⟩]
           else [])
    ∧ (("/x" : String) ≠ "/w"
       ∧ is_suspended (record_failure ⟨[], [], []⟩ "/w") "/x" = is_suspended ⟨[], [], []⟩ "/x") :=
  ⟨c5_suspension_protocol.2.1 ⟨[], [("/w", some 9)], [("/w", 4)]⟩ "/w",
   (c5_suspension_protocol.2.2.2.2.2 ⟨["/w"], [("/w", some 9)], []⟩ "/w" (some 3) true 100 "file:///w").1,
   (c5_suspension_protocol.2.2.2.2.2 ⟨["/w"], [("/w", some 9)], []⟩ "/w" (some 3) true 100 "file:///w").2.1,
   by decide,
   c5_suspension_protocol.2.2.1 ⟨[], [], []⟩ "/w" "/x" (by decide)⟩

/-! ## C1/C6: coalescer lemmas -/

/-- Every `some` result of `coalesce_single_event` keeps the existing
entry's resource. -/
theorem coalesce_single_event_resource (ex e c : FileChange)
    (h : coalesce_single_event ex e = some c) : c.resource = ex.resource := by
  unfold coalesce_single_event at h
  cases hex : ex.change_type <;> cases he : e.change_type <;>
    rw [hex, he] at h <;> simp only [Option.some.injEq] at h <;>
    first
      | exact (h ▸ rfl)
      | cases h

/-- A successful lookup names a pair of the list. -/
theorem assocGet?_mem {α : Type} (m : List (String × α)) (k : String) (v : α)
    (h : assocGet? m k = some v) : (k, v) ∈ m := by
  induction m with
  | nil => cases h
  | cons p t ih =>
    rw [assocGet?] at h
    by_cases hp : p.1 = k
    · rw [if_pos hp, Option.some.injEq] at h
      have hkv : (k, v) = p := by
        rw [← hp, ← h]
      rw [hkv]
      exact List.mem_cons_self p t
    · rw [if_neg hp] at h
      exact List.mem_cons_of_mem p (ih h)

/-- A failed lookup means the key is absent. -/
theorem assocGet?_eq_none_iff {α : Type} (m : List (String × α)) (k : String) :
    assocGet? m k = none ↔ k ∉ m.map Prod.fst := by
  induction m with
  | nil => simp [assocGet?]
  | cons p t ih =>
    rw [assocGet?]
    by_cases hp : p.1 = k
    · rw [if_pos hp]
      simp only [List.map_cons, List.mem_cons]
      constructor
      · intro h; cases h
      · intro h
        exact absurd (Or.inl hp.symm) h
    · rw [if_neg hp]
      simp only [List.map_cons, List.mem_cons]
      rw [ih]
      constructor
      · intro h hor
        rcases hor with h' | h'
        · exact hp h'.symm
        · exact h h'
      · intro h h'
        exact h (Or.inr h')

/-- Updating a present key keeps the key list. -/
theorem assocSet_map_fst {α : Type} (m : List (String × α)) (k : String) (v ex : α)
    (h : assocGet? m k = some ex) :
    (assocSet m k v).map Prod.fst = m.map Prod.fst := by
  induction m with
  | nil => cases h
  | cons p t ih =>
    rw [assocGet?] at h
    rw [assocSet]
    by_cases hp : p.1 = k
    · rw [if_pos hp]
      simp [hp]
    · rw [if_neg hp] at h ⊢
      simp [ih h]

/-- Members of an updated list: the new pair or an old member. -/
theorem assocSet_mem {α : Type} (m : List (String × α)) (k : String) (v : α)
    (p : String × α) (h : p ∈ assocSet m k v) : p = (k, v) ∨ p ∈ m := by
  induction m with
  | nil =>
    rw [assocSet] at h
    rcases List.mem_singleton.mp h with h'
    exact Or.inl h'
  | cons q t ih =>
    rw [assocSet] at h
    by_cases hq : q.1 = k
    · rw [if_pos hq] at h
      rcases List.mem_cons.mp h with h' | h'
      · exact Or.inl h'
      · exact Or.inr (List.mem_cons_of_mem q h')
    · rw [if_neg hq] at h
      rcases List.mem_cons.mp h with h' | h'
      · exact Or.inr (h' ▸ List.mem_cons_self q t)
      · rcases ih h' with h'' | h''
        · exact Or.inl h''
        · exact Or.inr (List.mem_cons_of_mem q h'')

/-- Removal is a filter on the key. -/
theorem assocRemove_eq_filter {α : Type} (m : List (String × α)) (k : String) :
    assocRemove m k = m.filter (fun p => p.1 ≠ k) := by
  induction m with
  | nil => rfl
  | cons p t ih =>
    rw [assocRemove, ih]
    by_cases hp : p.1 = k <;> simp [hp, List.filter_cons]

/-- One `collapseInto` step preserves key distinctness and the
value-resource-equals-key invariant. -/
theorem collapseInto_preserves (u : String → Option (List String))
    (inc : List String → Bool) (m : List (String × FileChange)) (e : FileChange)
    (h1 : (m.map Prod.fst).Nodup) (h2 : ∀ p ∈ m, (p.2).resource = p.1) :
    ((collapseInto u inc m e).map Prod.fst).Nodup
    ∧ ∀ p ∈ collapseInto u inc m e, (p.2).resource = p.1 := by
  cases hu : u e.resource with
  | none =>
    have heq : collapseInto u inc m e = m := by
      simp only [collapseInto, hu]
    rw [heq]
    exact ⟨h1, h2⟩
  | some path =>
    by_cases hinc : inc path
    · cases hget : assocGet? m e.resource with
      | some existing =>
        cases hcse : coalesce_single_event existing e with
        | some c =>
          have heq : collapseInto u inc m e = assocSet m e.resource c := by
            simp only [collapseInto, hu, hinc, Bool.not_true, hget, hcse]
            rfl
          rw [heq]
          refine ⟨by rw [assocSet_map_fst m e.resource c existing hget]; exact h1, ?_⟩
          intro p hp
          rcases assocSet_mem m e.resource c p hp with h' | h'
          · rw [h']
            have hexres : existing.resource = e.resource :=
              h2 (e.resource, existing) (assocGet?_mem m e.resource existing hget)
            calc c.resource = existing.resource :=
                  coalesce_single_event_resource existing e c hcse
              _ = e.resource := hexres
          · exact h2 p h'
        | none =>
          have heq : collapseInto u inc m e = assocRemove m e.resource := by
            simp only [collapseInto, hu, hinc, Bool.not_true, hget, hcse]
            rfl
          rw [heq, assocRemove_eq_filter]
          refine ⟨?_, ?_⟩
          · exact List.Nodup.sublist (List.Sublist.map Prod.fst (List.filter_sublist m)) h1
          · intro p hp
            exact h2 p (List.mem_filter.mp hp).1
      | none =>
        have heq : collapseInto u inc m e = m ++ [(e.resource, e)] := by
          simp only [collapseInto, hu, hinc, Bool.not_true, hget]
          rfl
        rw [heq]
        refine ⟨?_, ?_⟩
        · rw [List.map_append]
          rw [List.nodup_append]
          refine ⟨h1, List.nodup_singleton _, ?_⟩
          intro a ha hb
          rw [List.map_singleton, List.mem_singleton] at hb
          rw [hb] at ha
          exact ((assocGet?_eq_none_iff m e.resource).mp hget) ha
        · intro p hp
          rcases List.mem_append.mp hp with h' | h'
          · exact h2 p h'
          · rw [List.mem_singleton] at h'
            rw [h']
    · have heq : collapseInto u inc m e = m := by
        simp only [collapseInto, hu]
        rw [if_pos (by simp [hinc])]
      rw [heq]
      exact ⟨h1, h2⟩

/-- The coalescing fold keeps keys distinct and every value's resource
equal to its key. -/
theorem coalesceMap_inv (u : String → Option (List String))
    (inc : List String → Bool) (events : List FileChange) :
    ((coalesceMap u inc events).map Prod.fst).Nodup
    ∧ ∀ p ∈ coalesceMap u inc events, (p.2).resource = p.1 := by
  have H : ∀ (m : List (String × FileChange)),
      (m.map Prod.fst).Nodup → (∀ p ∈ m, (p.2).resource = p.1) →
      ((events.foldl (collapseInto u inc) m).map Prod.fst).Nodup
      ∧ ∀ p ∈ events.foldl (collapseInto u inc) m, (p.2).resource = p.1 := by
    induction events with
    | nil => exact fun m h1 h2 => ⟨h1, h2⟩
    | cons e es ih =>
      intro m h1 h2
      have step := collapseInto_preserves u inc m e h1 h2
      exact ih (collapseInto u inc m e) step.1 step.2
  exact H [] (by simp) (by simp)

/-- `any` is invariant under permutation. -/
theorem perm_any_congr {α : Type} {l1 l2 : List α} (h : l1.Perm l2) (f : α → Bool) :
    l1.any f = l2.any f := by
  induction h with
  | nil => rfl
  | cons a _ ih => simp [List.any_cons, ih]
  | swap a b l =>
    simp only [List.any_cons]
    rw [← Bool.or_assoc, Bool.or_comm (f b) (f a), Bool.or_assoc]
  | trans _ _ ih1 ih2 => rw [ih1, ih2]

/-- The parent-delete pruning commutes with permuting the value iteration:
permuted iterations prune to permuted outputs. -/
theorem finalizeEvents_perm (u : String → Option (List String))
    {vals1 vals2 : List FileChange} (h : vals1.Perm vals2) :
    (finalizeEvents u vals1).Perm (finalizeEvents u vals2) := by
  unfold finalizeEvents
  have hdp : (deletedPaths u vals1).Perm (deletedPaths u vals2) :=
    (h.filter _).filterMap _
  have hpred : (fun e : FileChange =>
      !(e.change_type == FileChangeType.Deleted &&
        (match u e.resource with
         | some path => shouldSkipDeleted (deletedPaths u vals1) path
         | none => false)))
      = (fun e : FileChange =>
      !(e.change_type == FileChangeType.Deleted &&
        (match u e.resource with
         | some path => shouldSkipDeleted (deletedPaths u vals2) path
         | none => false))) := by
    funext e
    cases u e.resource with
    | none => rfl
    | some path =>
      simp only []
      rw [shouldSkipDeleted, shouldSkipDeleted, perm_any_congr hdp]
  rw [hpred]
  exact h.filter _

/-- C1: for every input batch and every `HashMap` iteration order of the
collapsed map, the coalescer output has at most one entry per resource
(conjunct 1); no surviving `Deleted` entry's path is a strict descendant of
another surviving `Deleted` entry's path (conjunct 2); and the per-resource
collapse follows the rewrite table — Added+Deleted drops both,
Deleted+Added becomes Updated, Added+Updated stays Added, Updated+Deleted
becomes Deleted (conjuncts 3–6). -/
theorem c1_coalescer_collapse (u : String → Option (List String))
    (inc : List String → Bool) (events : List FileChange)
    (order : List (String × FileChange))
    (hord : order.Perm (coalesceMap u inc events)) :
    ((coalesce_events u inc events order).map FileChange.resource).Nodup
    ∧ (∀ e1 ∈ coalesce_events u inc events order,
        ∀ e2 ∈ coalesce_events u inc events order,
        e1.change_type = .Deleted → e2.change_type = .Deleted →
        ∀ p1 p2, u e1.resource = some p1 → u e2.resource = some p2 →
        p2.isPrefixOf p1 = true → p2.length < p1.length → False)
    ∧ (∀ ex e, ex.change_type = .Added → e.change_type = .Deleted →
        coalesce_single_event ex e = none)
    ∧ (∀ ex e, ex.change_type = .Deleted → e.change_type = .Added →
        coalesce_single_event ex e
          = some ⟨ex.resource, .Updated, e.correlation_id, e.mtime⟩)
    ∧ (∀ ex e, ex.change_type = .Added → e.change_type = .Updated →
        coalesce_single_event ex e
          = some ⟨ex.resource, .Added, e.correlation_id, e.mtime⟩)
    ∧ (∀ ex e, ex.change_type = .Updated → e.change_type = .Deleted →
        coalesce_single_event ex e
          = some ⟨ex.resource, .Deleted, e.correlation_id, e.mtime⟩) := by
  obtain ⟨hnodup, hres⟩ := coalesceMap_inv u inc events
  have hres' : ∀ p ∈ order, (p.2).resource = p.1 :=
    fun p hp => hres p (hord.mem_iff.mp hp)
  refine ⟨?_, ?_, ?_, ?_, ?_, ?_⟩
  · have hmapeq : (order.map Prod.snd).map FileChange.resource = order.map Prod.fst := by
      rw [List.map_map]
      exact List.map_congr_left hres'
    have hnodup_order : (order.map Prod.fst).Nodup :=
      ((hord.map Prod.fst).nodup_iff).mpr hnodup
    have hsub : List.Sublist
        ((coalesce_events u inc events order).map FileChange.resource)
        ((order.map Prod.snd).map FileChange.resource) :=
      List.Sublist.map _ (List.filter_sublist _)
    rw [hmapeq] at hsub
    exact List.Nodup.sublist hsub hnodup_order
  · intro e1 he1 e2 he2 h1d h2d p1 p2 hu1 hu2 hpre hlen
    rw [coalesce_events, finalizeEvents] at he1 he2
    obtain ⟨hv1, hp1⟩ := List.mem_filter.mp he1
    obtain ⟨hv2, -⟩ := List.mem_filter.mp he2
    rw [Bool.not_eq_true'] at hp1
    rw [h1d] at hp1
    rw [hu1] at hp1
    simp only [beq_self_eq_true, Bool.true_and] at hp1
    have hp2mem : p2 ∈ deletedPaths u (order.map Prod.snd) := by
      rw [deletedPaths]
      apply List.mem_filterMap.mpr
      exact ⟨e2, List.mem_filter.mpr ⟨hv2, by rw [h2d]; rfl⟩, hu2⟩
    have hne : p2 ≠ p1 := fun h => by
      rw [h] at hlen
      exact Nat.lt_irrefl _ hlen
    have hdrop : (p1.drop p2.length).isEmpty = false := by
      rw [List.isEmpty_eq_false_iff_exists_mem]
      have hlen' : 0 < (p1.drop p2.length).length := by
        rw [List.length_drop]
        omega
      rcases List.exists_mem_of_length_pos hlen' with ⟨x, hx⟩
      exact ⟨x, hx⟩
    have hskip : shouldSkipDeleted (deletedPaths u (order.map Prod.snd)) p1 = true := by
      rw [shouldSkipDeleted]
      apply List.any_eq_true.mpr
      refine ⟨p2, hp2mem, ?_⟩
      simp [hne, hpre, hdrop]
    rw [hskip] at hp1
    cases hp1
  · intro ex e hx he
    unfold coalesce_single_event
    rw [hx, he]
  · intro ex e hx he
    unfold coalesce_single_event
    rw [hx, he]
  · intro ex e hx he
    unfold coalesce_single_event
    rw [hx, he]
  · intro ex e hx he
    unfold coalesce_single_event
    rw [hx, he]

/-- C1 witness: the spec's own collapse scenario, iterated in insertion
order; the output is exactly `[Added /y, Deleted /z]`. -/
theorem c1_witness :
    (coalesceMap uriToPathModel (fun _ => true) demoEvents).Perm
      (coalesceMap uriToPathModel (fun _ => true) demoEvents)
    ∧ ((coalesce_events uriToPathModel (fun _ => true) demoEvents
          (coalesceMap uriToPathModel (fun _ => true) demoEvents)).map
        FileChange.resource).Nodup
    ∧ coalesce_events uriToPathModel (fun _ => true) demoEvents
        (coalesceMap uriToPathModel (fun _ => true) demoEvents)
      = [⟨"file:///y", .Added, none, none⟩, ⟨"file:///z", .Deleted, none, none⟩] :=
  ⟨List.Perm.refl _,
   (c1_coalescer_collapse uriToPathModel (fun _ => true) demoEvents
     (coalesceMap uriToPathModel (fun _ => true) demoEvents) (List.Perm.refl _)).1,
   by decide⟩

/-- C6 counterexample: for the batch `[Added /a, Added /b]` the reversed
map order is a legitimate `HashMap` iteration order (it is a permutation of
the collapsed map), and under it the output lists `/b` before `/a` while
the paths' first occurrences in the input arrive `/a` before `/b` — the
claimed preservation of relative arrival order is false. -/
theorem c6_counterexample :
    ([(("file:///b" : String), (⟨"file:///b", .Added, none, none⟩ : FileChange)),
      ("file:///a", ⟨"file:///a", .Added, none, none⟩)]).Perm
      (coalesceMap uriToPathModel (fun _ => true) abEvents)
    ∧ (coalesce_events uriToPathModel (fun _ => true) abEvents
        [("file:///b", ⟨"file:///b", .Added, none, none⟩),
         ("file:///a", ⟨"file:///a", .Added, none, none⟩)]).map FileChange.resource
      = ["file:///b", "file:///a"]
    ∧ abEvents.map FileChange.resource = ["file:///a", "file:///b"]
    ∧ (["file:///b", "file:///a"] : List String) ≠ ["file:///a", "file:///b"] :=
  ⟨by decide, by decide, by decide, by decide⟩

/-- C6 (amended): the coalescer's output order across distinct paths is
unspecified — the final loop iterates a `HashMap` — but the multiset of
emitted entries does not depend on the iteration order: any two iteration
orders of the collapsed map prune to outputs that are permutations of each
other. -/
theorem c6_output_set_order_free (u : String → Option (List String))
    (inc : List String → Bool) (events : List FileChange)
    (order1 order2 : List (String × FileChange))
    (h1 : order1.Perm (coalesceMap u inc events))
    (h2 : order2.Perm (coalesceMap u inc events)) :
    (coalesce_events u inc events order1).Perm (coalesce_events u inc events order2) :=
  finalizeEvents_perm u ((h1.trans h2.symm).map Prod.snd)

/-- C6 witness: the reversed and the in-order iterations of the two-path
batch produce permuted outputs. -/
theorem c6_witness :
    ([(("file:///b" : String), (⟨"file:///b", .Added, none, none⟩ : FileChange)),
      ("file:///a", ⟨"file:///a", .Added, none, none⟩)]).Perm
      (coalesceMap uriToPathModel (fun _ => true) abEvents)
    ∧ (coalesceMap uriToPathModel (fun _ => true) abEvents).Perm
      (coalesceMap uriToPathModel (fun _ => true) abEvents)
    ∧ (coalesce_events uriToPathModel (fun _ => true) abEvents
        [("file:///b", ⟨"file:///b", .Added, none, none⟩),
         ("file:///a", ⟨"file:///a", .Added, none, none⟩)]).Perm
      (coalesce_events uriToPathModel (fun _ => true) abEvents
        (coalesceMap uriToPathModel (fun _ => true) abEvents)) :=
  ⟨by decide, List.Perm.refl _,
   c6_output_set_order_free uriToPathModel (fun _ => true) abEvents
     [("file:///b", ⟨"file:///b", .Added, none, none⟩),
      ("file:///a", ⟨"file:///a", .Added, none, none⟩)]
     (coalesceMap uriToPathModel (fun _ => true) abEvents)
     (by decide) (List.Perm.refl _)⟩

end MintMind
